import Mathlib

/-!
Verification model of the rendering core of mkdocs-plugin-commonmark
(file mistletoe_interop.py).  Python strings are modelled as lists of
characters (`Str`); the Python-Markdown `AtomicString` marker is modelled
as a boolean flag carried next to a string (`PyStr`).  Fallible Python
code (IndexError, AttributeError, KeyError, ValueError) is modelled with
`Option` and `Except`.
-/

/-- A Python string, as a list of characters. -/
abbrev Str := List Char

/-- The apostrophe character (codepoint 39). -/
def aposChar : Char := Char.ofNat 39

/-- concatMap over a character list; used to characterise string rewrites. -/
def cmap (f : Char → Str) : Str → Str
  | [] => []
  | c :: rest => f c ++ cmap f rest

/-- Prefix test on character lists (Python startswith), in a form whose
applications reduce definitionally. -/
def strPrefix : Str → Str → Bool
  | [], _ => true
  | _ :: _, [] => false
  | a :: as, b :: bs => a == b && strPrefix as bs

/-- Fuel-driven model of the Python method replace(old, new) on strings,
for a nonempty pattern: leftmost, non-overlapping scan.  With fuel at
least the length of the scanned string the fuel-exhaustion case is
unreachable. -/
def pyReplaceF : Nat → Str → Str → Str → Str
  | 0, _, _, s => s
  | _ + 1, _, _, [] => []
  | fuel + 1, old, new, c :: rest =>
    if !old.isEmpty && strPrefix old (c :: rest) then
      new ++ pyReplaceF fuel old new ((c :: rest).drop old.length)
    else
      c :: pyReplaceF fuel old new rest

/-- Python replace(old, new) for a nonempty pattern. -/
def pyReplace (old new s : Str) : Str := pyReplaceF s.length old new s

/-- Model of the Python stdlib function html.escape with quote=True:
five successive single-character replacements, in source order
(amp, double quote, apostrophe, lt, gt). -/
def htmlEscape (s : Str) : Str :=
  pyReplace (">".data) ("&gt;".data)
    (pyReplace ("<".data) ("&lt;".data)
      (pyReplace ([aposChar]) ("&#x27;".data)
        (pyReplace ("\"".data) ("&quot;".data)
          (pyReplace ("&".data) ("&amp;".data) s))))

/-- ASCII decimal digit test, as in the regex class [0-9]. -/
def isAsciiDigit (c : Char) : Bool := 48 ≤ c.toNat && c.toNat ≤ 57

/-- ASCII hexadecimal digit test, as in the regex class [0-9a-fA-F]. -/
def isHexDigitCh (c : Char) : Bool :=
  isAsciiDigit c || (97 ≤ c.toNat && c.toNat ≤ 102) || (65 ≤ c.toNat && c.toNat ≤ 70)

/-- The character class of a named reference body: the regex class
matching every character except tab, newline, formfeed, space, lt,
amp, hash and semicolon. -/
def isCharrefNameChar (c : Char) : Bool :=
  !(c == '\t' || c == '\n' || c == '\x0C' || c == ' ' ||
    c == '<' || c == '&' || c == '#' || c == ';')

/-- The character-reference pattern the renderer installs over the
stdlib one (ETreeRenderer.__init__): it matches, after an ampersand,
a decimal reference, a hexadecimal reference, or a named reference of
1 to 32 class characters, in each case REQUIRING the closing
semicolon.  Returns the matched group together with the rest of the
input. -/
def charrefMatchPatched (s : Str) : Option (Str × Str) :=
  match s with
  | [] => none
  | c :: rest =>
    if c == '#' then
      match rest with
      | [] => none
      | d :: rest2 =>
        if d == 'x' || d == 'X' then
          let h := rest2.takeWhile isHexDigitCh
          if !h.isEmpty && ((rest2.drop h.length).head? == some (';')) then
            some ('#' :: d :: (h ++ [';']), rest2.drop (h.length + 1))
          else none
        else
          let ds := rest.takeWhile isAsciiDigit
          if !ds.isEmpty && ((rest.drop ds.length).head? == some (';')) then
            some ('#' :: (ds ++ [';']), rest.drop (ds.length + 1))
          else none
    else
      let nm := (c :: rest).takeWhile isCharrefNameChar
      if !nm.isEmpty && nm.length ≤ 32 &&
          (((c :: rest).drop nm.length).head? == some (';')) then
        some (nm ++ [';'], (c :: rest).drop (nm.length + 1))
      else none

/-- The stdlib character-reference pattern (html._charref): as above but
the closing semicolon is optional, and a named run longer than 32 class
characters still matches on its first 32 characters. -/
def charrefMatchStdlib (s : Str) : Option (Str × Str) :=
  match s with
  | [] => none
  | c :: rest =>
    if c == '#' then
      match rest with
      | [] => none
      | d :: rest2 =>
        if d == 'x' || d == 'X' then
          let h := rest2.takeWhile isHexDigitCh
          if h.isEmpty then none
          else if (rest2.drop h.length).head? == some (';') then
            some ('#' :: d :: (h ++ [';']), rest2.drop (h.length + 1))
          else
            some ('#' :: d :: h, rest2.drop h.length)
        else
          let ds := rest.takeWhile isAsciiDigit
          if ds.isEmpty then none
          else if (rest.drop ds.length).head? == some (';') then
            some ('#' :: (ds ++ [';']), rest.drop (ds.length + 1))
          else
            some ('#' :: ds, rest.drop ds.length)
    else
      let nm := (c :: rest).takeWhile isCharrefNameChar
      if nm.isEmpty then none
      else
        let k := min nm.length 32
        if (k == nm.length) && (((c :: rest).drop k).head? == some (';')) then
          some (nm ++ [';'], (c :: rest).drop (k + 1))
        else
          some (nm.take k, (c :: rest).drop k)

/-- Modelled from the Python stdlib table html.entities.html5, restricted
to a representative subset of entries (the full table has about 2200
entries; only these are exercised by the development).  Keys may or may
not end in a semicolon, exactly as in the stdlib table; in particular
the apostrophe entity exists only in its terminated form. -/
def html5Entities : List (Str × Str) :=
  [ ("amp;".data, "&".data), ("amp".data, "&".data),
    ("AMP;".data, "&".data), ("AMP".data, "&".data),
    ("lt;".data, "<".data), ("lt".data, "<".data),
    ("LT;".data, "<".data), ("LT".data, "<".data),
    ("gt;".data, ">".data), ("gt".data, ">".data),
    ("GT;".data, ">".data), ("GT".data, ">".data),
    ("quot;".data, "\"".data), ("quot".data, "\"".data),
    ("QUOT;".data, "\"".data), ("QUOT".data, "\"".data),
    ("apos;".data, "\x27".data),
    ("nbsp;".data, " ".data), ("nbsp".data, " ".data),
    ("copy;".data, "©".data), ("copy".data, "©".data),
    ("frac12;".data, "½".data), ("frac12".data, "½".data) ]

/-- Lookup in the modelled html5 entity table. -/
def lookupEnt (key : Str) : Option Str :=
  (html5Entities.find? (fun p => p.1 == key)).map (fun p => p.2)

/-- The longest-matching-name fallback of the stdlib named-reference
replacement: try the first x characters of the group for x from
len - 1 down to 2; if none is a known entity, keep the text with its
ampersand. -/
def entNameFallback (g : Str) : Nat → Str
  | 0 => '&' :: g
  | x + 1 =>
    if x + 1 < 2 then '&' :: g
    else
      match lookupEnt (g.take (x + 1)) with
      | some v => v ++ g.drop (x + 1)
      | none => entNameFallback g x

/-- Named-reference replacement (stdlib _replace_charref, named branch). -/
def namedReplace (g : Str) : Str :=
  match lookupEnt g with
  | some v => v
  | none => entNameFallback g (g.length - 1)

/-- Decimal digit string to Nat (Python int of a digit run). -/
def decToNat (s : Str) : Nat := s.foldl (fun a c => a * 10 + (c.toNat - 48)) 0

/-- Hexadecimal digit value of one character. -/
def hexVal (c : Char) : Nat :=
  if isAsciiDigit c then c.toNat - 48
  else if 97 ≤ c.toNat then c.toNat - 87
  else c.toNat - 55

/-- Hexadecimal digit string to Nat (Python int with base 16). -/
def hexToNat (s : Str) : Nat := s.foldl (fun a c => a * 16 + hexVal c) 0

/-- Drop every trailing semicolon (Python rstrip with a semicolon). -/
def dropTrailingSemis (s : Str) : Str :=
  (s.reverse.dropWhile (fun c => c == ';')).reverse

/-- Modelled from the Python stdlib table html._invalid_charrefs. -/
def invalidCharrefs : List (Nat × Str) :=
  [ (0x00, "�".data), (0x0d, "\x0D".data), (0x80, "€".data),
    (0x81, "\u0081".data), (0x82, "‚".data), (0x83, "ƒ".data),
    (0x84, "„".data), (0x85, "…".data), (0x86, "†".data),
    (0x87, "‡".data), (0x88, "ˆ".data), (0x89, "‰".data),
    (0x8a, "Š".data), (0x8b, "‹".data), (0x8c, "Œ".data),
    (0x8d, "\u008D".data), (0x8e, "Ž".data), (0x8f, "\u008F".data),
    (0x90, "\u0090".data), (0x91, "‘".data), (0x92, "’".data),
    (0x93, "“".data), (0x94, "”".data), (0x95, "•".data),
    (0x96, "–".data), (0x97, "—".data), (0x98, "˜".data),
    (0x99, "™".data), (0x9a, "š".data), (0x9b, "›".data),
    (0x9c, "œ".data), (0x9d, "\u009D".data), (0x9e, "ž".data),
    (0x9f, "Ÿ".data) ]

/-- Modelled from the Python stdlib set html._invalid_codepoints. -/
def invalidCodepoint (n : Nat) : Bool :=
  (1 ≤ n && n ≤ 8) || n == 0xb || (0xe ≤ n && n ≤ 0x1f) ||
  (0x7f ≤ n && n ≤ 0x9f) || (0xfdd0 ≤ n && n ≤ 0xfdef) ||
  (n % 0x10000 == 0xfffe) || (n % 0x10000 == 0xffff)

/-- Replacement of one matched character-reference group (stdlib
_replace_charref): numeric groups are decoded with the windows-1252
fixups, surrogate and overflow ranges map to the replacement character,
invalid codepoints vanish; named groups go through the entity table
with the longest-prefix fallback. -/
def replaceCharref (g : Str) : Str :=
  match g with
  | '#' :: rest =>
    let num :=
      match rest with
      | c :: rest2 =>
        if c == 'x' || c == 'X' then hexToNat (dropTrailingSemis rest2)
        else decToNat (dropTrailingSemis rest)
      | [] => 0
    match (invalidCharrefs.find? (fun p => p.1 == num)).map (fun p => p.2) with
    | some v => v
    | none =>
      if (0xD800 ≤ num && num ≤ 0xDFFF) || 0x10FFFF < num then "�".data
      else if invalidCodepoint num then []
      else [Char.ofNat num]
  | _ => namedReplace g

/-- Fuel-driven model of the Python stdlib function html.unescape AS THE
RENDERER PATCHES IT (ETreeRenderer.__init__ replaces html._charref with
the strict pattern): scan for an ampersand, try the patched pattern,
substitute matches, pass unmatched text through. -/
def htmlUnescapeF : Nat → Str → Str
  | 0, s => s
  | _ + 1, [] => []
  | fuel + 1, c :: rest =>
    if c == '&' then
      match charrefMatchPatched rest with
      | some (g, rem) => replaceCharref g ++ htmlUnescapeF fuel rem
      | none => c :: htmlUnescapeF fuel rest
    else
      c :: htmlUnescapeF fuel rest

/-- html.unescape under the patched character-reference pattern. -/
def htmlUnescape (s : Str) : Str := htmlUnescapeF s.length s

/-- ETreeRenderer.escape_html: unescape, escape, then put the literal
apostrophe back in place of its numeric escape. -/
def escape_html (raw : Str) : Str :=
  pyReplace ("&#x27;".data) ([aposChar]) (htmlEscape (htmlUnescape raw))

/-- The always-safe characters of urllib.parse.quote: ASCII letters,
digits, underscore, dot, dash, tilde. -/
def isAlwaysSafe (c : Char) : Bool :=
  (97 ≤ c.toNat && c.toNat ≤ 122) || (65 ≤ c.toNat && c.toNat ≤ 90) ||
  (48 ≤ c.toNat && c.toNat ≤ 57) ||
  c == '_' || c == '.' || c == '-' || c == '~'

/-- The extra safe characters passed by escape_url. -/
def urlSafeExtra : Str := "/#:()*?=%@+,&".data

/-- UTF-8 bytes of one character. -/
def utf8Bytes (c : Char) : List Nat :=
  let n := c.toNat
  if n < 0x80 then [n]
  else if n < 0x800 then
    [0xC0 + n / 64, 0x80 + n % 64]
  else if n < 0x10000 then
    [0xE0 + n / 4096, 0x80 + (n / 64) % 64, 0x80 + n % 64]
  else
    [0xF0 + n / 262144, 0x80 + (n / 4096) % 64, 0x80 + (n / 64) % 64, 0x80 + n % 64]

/-- One uppercase hexadecimal digit. -/
def hexDigitUpper (n : Nat) : Char :=
  if n < 10 then Char.ofNat (48 + n) else Char.ofNat (65 + n - 10)

/-- Percent-encoding of one byte, uppercase, as urllib.parse.quote emits. -/
def pctByte (b : Nat) : Str := ['%', hexDigitUpper (b / 16), hexDigitUpper (b % 16)]

/-- Model of urllib.parse.quote with the safe set used by escape_url:
safe characters pass through, every other character is UTF-8
percent-encoded. -/
def pyQuote (s : Str) : Str :=
  cmap (fun c =>
    if isAlwaysSafe c || urlSafeExtra.contains c then [c]
    else (utf8Bytes c).foldr (fun b acc => pctByte b ++ acc) []) s

/-- ETreeRenderer.escape_url: unescape, percent-encode with the URL safe
set, then html-escape the result. -/
def escape_url (raw : Str) : Str := htmlEscape (pyQuote (htmlUnescape raw))

/-- A Python text run: its characters plus the AtomicString marker
(Python-Markdown uses a str subclass as a do-not-reprocess marker). -/
structure PyStr where
  s : Str
  atomic : Bool
deriving DecidableEq

/-- An etree attribute value: the renderer stores strings, except for
the special boolean attribute used by the raw-text wrapper. -/
inductive AttrVal where
  | str (v : Str)
  | bool (v : Bool)
deriving DecidableEq

/-- An ElementTree element: tag, attributes in insertion order, text,
tail, children. -/
inductive Elem where
  | mk (tag : Str) (attrs : List (Str × AttrVal))
       (text : Option PyStr) (tail : Option PyStr)
       (children : List Elem)

def Elem.tag : Elem → Str
  | .mk t _ _ _ _ => t

def Elem.attrs : Elem → List (Str × AttrVal)
  | .mk _ a _ _ _ => a

def Elem.text : Elem → Option PyStr
  | .mk _ _ tx _ _ => tx

def Elem.tail : Elem → Option PyStr
  | .mk _ _ _ tl _ => tl

def Elem.children : Elem → List Elem
  | .mk _ _ _ _ cs => cs

def Elem.setText : Elem → Option PyStr → Elem
  | .mk t a _ tl cs, tx => .mk t a tx tl cs

def Elem.setTail : Elem → Option PyStr → Elem
  | .mk t a tx _ cs, tl => .mk t a tx tl cs

def Elem.appendChild : Elem → Elem → Elem
  | .mk t a tx tl cs, c => .mk t a tx tl (cs ++ [c])

/-- Replace the last element of a list by applying a function to it. -/
def modifyLastElem (f : Elem → Elem) : List Elem → List Elem
  | [] => []
  | [c] => [f c]
  | c :: c2 :: rest => c :: modifyLastElem f (c2 :: rest)

def Elem.modifyLastChild : Elem → (Elem → Elem) → Elem
  | .mk t a tx tl cs, f => .mk t a tx tl (modifyLastElem f cs)

/-- The function unsafe_wrap of the source (renamed; the source name is
not usable here): enclose a text in an element with the empty tag and
the special boolean attribute, so the serializer emits its text content
verbatim. -/
def wrap_unescaped (t : PyStr) : Elem :=
  .mk [] [("unsafe".data, AttrVal.bool true)] (some t) none []

/-- safe_concat of the source: concatenate a possibly-missing left text
with a right text.  The Python code keeps the AtomicString type exactly
when the LEFT side is an AtomicString; in every other branch ordinary
string concatenation produces a plain str, so a marker carried only by
the right side is dropped. -/
def safe_concat (a : Option PyStr) (b : PyStr) : PyStr :=
  match a with
  | some av =>
    if av.atomic then { s := av.s ++ b.s, atomic := true }
    else { s := av.s ++ b.s, atomic := false }
  | none => { s := b.s, atomic := false }

/-- A value produced by a renderer function: a text run, an element, or
a (possibly nested) sequence of such values (Python generators and
lists). -/
inductive Rendered where
  | rstr (v : PyStr)
  | relem (e : Elem)
  | rlist (xs : List Rendered)

/-- An item after flattening: a text run or an element. -/
abbrev RItem := PyStr ⊕ Elem

mutual
/-- The generator splice of the source: yield strings and elements as
they are, recurse into nested iterables, depth-first. -/
def spliceR : Rendered → List RItem
  | .rstr v => [Sum.inl v]
  | .relem e => [Sum.inr e]
  | .rlist xs => spliceL xs

def spliceL : List Rendered → List RItem
  | [] => []
  | r :: rs => spliceR r ++ spliceL rs
end

/-- Flush the plain-text buffer of append_elems into the element: into
the tail of the last element appended so far if one exists, else into
the element text.  The buffer is always a plain str in the source
(accumulated with ordinary concatenation), hence the marker-less
right-hand side. -/
def flushBuf (el : Elem) (prevSet : Bool) (buf : Str) : Elem :=
  if buf.isEmpty then el
  else if prevSet then
    el.modifyLastChild (fun c => c.setTail (some (safe_concat c.tail { s := buf, atomic := false })))
  else
    el.setText (some (safe_concat el.text { s := buf, atomic := false }))

/-- The loop body of append_elems over the spliced items. -/
def appendElemsAux (el : Elem) (prevSet : Bool) (buf : Str) : List RItem → Elem
  | [] => flushBuf el prevSet buf
  | Sum.inl v :: rest => appendElemsAux el prevSet (buf ++ v.s) rest
  | Sum.inr c :: rest => appendElemsAux ((flushBuf el prevSet buf).appendChild c) true [] rest

/-- append_elems of the source: distribute a mixed sequence of text and
elements into an element, buffering text and attaching it before the
next element (or at the end). -/
def append_elems (el : Elem) (inner : Rendered) : Elem :=
  appendElemsAux el false [] (spliceR inner)

/-- append_newline_inside of the source: append a newline to the tail of
the last child when there are children (AtomicString tails stay atomic);
else append it to a non-empty text with plain concatenation (which in
Python drops an AtomicString marker); else do nothing. -/
def append_newline_inside (el : Elem) : Elem :=
  if !el.children.isEmpty then
    el.modifyLastChild (fun c =>
      match c.tail with
      | none => c.setTail (some { s := "\n".data, atomic := true })
      | some p => c.setTail (some { s := p.s ++ "\n".data, atomic := p.atomic }))
  else
    match el.text with
    | some p => if p.s.isEmpty then el else el.setText (some { s := p.s ++ "\n".data, atomic := false })
    | none => el

/-- render_inner_join of the source: interleave an AtomicString newline
between consecutive rendered children. -/
def innerJoin : List Rendered → List Rendered
  | [] => []
  | h :: t => h :: joinTail t
where
  joinTail : List Rendered → List Rendered
  | [] => []
  | x :: r => .rstr { s := "\n".data, atomic := true } :: x :: joinTail r

/-- Whether a rendered value is an element (used to state that a value
is not a wrapper node of any kind). -/
def Rendered.isElem : Rendered → Bool
  | .relem _ => true
  | _ => false

/-- A plain (non-atomic) newline text run. -/
def nlP : PyStr := { s := "\n".data, atomic := false }

/-- Python str of an integer. -/
def intToStr (i : Int) : Str :=
  if i < 0 then '-' :: Nat.toDigits 10 i.natAbs else Nat.toDigits 10 i.natAbs

/-- The mistletoe token kinds the renderer dispatches on.  Children are
ordered child tokens; content is the raw text of leaf tokens.  The block
code constructor covers both the CodeFence and BlockCode classes (the
spec calls the kind CodeBlock); the document constructor carries the
optional root_tag of DocumentLazy. -/
inductive Token where
  | document (rootTag : Option Str) (children : List Token)
  | heading (level : Nat) (children : List Token)
  | paragraph (children : List Token)
  | quote (children : List Token)
  | list (start : Option Int) (loose : Bool) (children : List Token)
  | listItem (children : List Token)
  | blockCode (language : Str) (children : List Token)
  | thematicBreak
  | htmlBlock (content : Str)
  | table (header : Option Token) (children : List Token)
  | tableRow (children : List Token)
  | tableCell (align : Option Int) (children : List Token)
  | strong (children : List Token)
  | emphasis (children : List Token)
  | strikethrough (children : List Token)
  | inlineCode (children : List Token)
  | link (target : Str) (title : Str) (children : List Token)
  | image (src : Str) (title : Str) (children : List Token)
  | autoLink (target : Str) (mailto : Bool) (children : List Token)
  | escapeSequence (children : List Token)
  | rawText (content : Str)
  | lineBreak (soft : Bool) (content : Str)
  | htmlSpan (content : Str)

/-- The children attribute of a token, when the mistletoe class has one
(hasattr check of render_to_plain). -/
def Token.childrenOpt : Token → Option (List Token)
  | .document _ cs => some cs
  | .heading _ cs => some cs
  | .paragraph cs => some cs
  | .quote cs => some cs
  | .list _ _ cs => some cs
  | .listItem cs => some cs
  | .blockCode _ cs => some cs
  | .table _ cs => some cs
  | .tableRow cs => some cs
  | .tableCell _ cs => some cs
  | .strong cs => some cs
  | .emphasis cs => some cs
  | .strikethrough cs => some cs
  | .inlineCode cs => some cs
  | .link _ _ cs => some cs
  | .image _ _ cs => some cs
  | .autoLink _ _ cs => some cs
  | .escapeSequence cs => some cs
  | _ => none

/-- The content attribute of a token, for the leaf kinds that carry
one; absent content models an AttributeError. -/
def Token.contentOpt : Token → Option Str
  | .rawText c => some c
  | .htmlSpan c => some c
  | .htmlBlock c => some c
  | .lineBreak _ c => some c
  | _ => none

/-- The class-name check used by render_list_item. -/
def Token.isParagraph : Token → Bool
  | .paragraph _ => true
  | _ => false

/-- Whether the last token of a list is a Paragraph. -/
def lastIsParagraph (l : List Token) : Bool :=
  match l.getLast? with
  | some t => t.isParagraph
  | none => false

/-- The align attribute assignment of render_table_cell: None maps to
left, 0 to center, 1 to right, and any other value sets no attribute. -/
def alignAttrOf : Option Int → List (Str × AttrVal)
  | none => [("align".data, AttrVal.str ("left".data))]
  | some a =>
    if a == 0 then [("align".data, AttrVal.str ("center".data))]
    else if a == 1 then [("align".data, AttrVal.str ("right".data))]
    else []

/-- render_to_plain of the source, over a list of tokens: tokens with
children recurse, leaf tokens contribute their escaped content; fuel
bounds the recursion depth (the source recursion is finite on finite
trees). -/
def renderToPlainL : Nat → List Token → Option Str
  | 0, _ => none
  | _ + 1, [] => some []
  | f + 1, t :: ts =>
    match (match t.childrenOpt with
           | some cs => renderToPlainL f cs
           | none => (t.contentOpt).map escape_html) with
    | none => none
    | some s1 =>
      match renderToPlainL f ts with
      | none => none
      | some s2 => some (s1 ++ s2)

/-- The suppression stack: a Python list of booleans; here the TOP of
the stack (Python index -1, the append/pop end) is the HEAD of the
list. -/
abbrev RState := List Bool

/-- The initial suppression stack of ETreeRenderer.__init__. -/
def initialSuppressStack : RState := [false]

/-- The call kinds of the renderer: the dispatching render method, the
render_inner traversal, render_table_row with its header flag, the cell
list comprehension of render_table_row, and render_table_cell. -/
inductive RCall where
  | tok (t : Token)
  | inner (ts : List Token)
  | row (isHeader : Bool) (t : Token)
  | cells (isHeader : Bool) (ts : List Token)
  | cell (inHeader : Bool) (t : Token)

/-- The result kinds of the renderer calls. -/
inductive RRes where
  | one (r : Rendered)
  | many (rs : List Rendered)
  | el (e : Elem)
  | els (es : List Elem)

def getOne : Option (RRes × RState) → Option (Rendered × RState)
  | some (.one r, st) => some (r, st)
  | _ => none

def getMany : Option (RRes × RState) → Option (List Rendered × RState)
  | some (.many rs, st) => some (rs, st)
  | _ => none

def getEl : Option (RRes × RState) → Option (Elem × RState)
  | some (.el e, st) => some (e, st)
  | _ => none

def getEls : Option (RRes × RState) → Option (List Elem × RState)
  | some (.els es, st) => some (es, st)
  | _ => none

/-- The renderer of ETreeRenderer, with all mutually recursive pieces
packed into one fuel-indexed function.  The suppression stack is
threaded explicitly; a none result models a raised Python exception
(IndexError, AttributeError, pop from an empty list).  Source laziness
(generators) is rendered eagerly; this is observationally equal here
because every render function restores the stack before yielding. -/
def renderCore : Nat → RState → RCall → Option (RRes × RState)
  | 0, _, _ => none
  | f + 1, st, call =>
    match call with
    | .inner [] => some (.many [], st)
    | .inner (t :: ts) =>
      match getOne (renderCore f st (.tok t)) with
      | none => none
      | some (r, st1) =>
        match getMany (renderCore f st1 (.inner ts)) with
        | none => none
        | some (rs, st2) => some (.many (r :: rs), st2)
    | .cells _ [] => some (.els [], st)
    | .cells isHeader (t :: ts) =>
      match getEl (renderCore f st (.cell isHeader t)) with
      | none => none
      | some (e, st1) =>
        match getEls (renderCore f st1 (.cells isHeader ts)) with
        | none => none
        | some (es, st2) => some (.els (e :: es), st2)
    | .cell inHeader t =>
      match t with
      | .tableCell align cs =>
        match getMany (renderCore f st (.inner cs)) with
        | none => none
        | some (xs, st1) =>
          let el0 : Elem := .mk (if inHeader then "th".data else "td".data)
            (alignAttrOf align) none (some nlP) []
          some (.el (append_elems el0 (.rlist xs)), st1)
      | _ => none
    | .row isHeader t =>
      match t.childrenOpt with
      | none => none
      | some cs =>
        match getEls (renderCore f st (.cells isHeader cs)) with
        | none => none
        | some (es, st1) =>
          let el0 : Elem := .mk ("tr".data) [] (some nlP) (some nlP) []
          some (.el (append_elems el0 (.rlist (es.map Rendered.relem))), st1)
    | .tok t =>
      match t with
      | .document rootTag cs =>
        match getMany (renderCore f st (.inner cs)) with
        | none => none
        | some (xs, st1) =>
          let el0 : Elem := .mk (rootTag.getD ("div".data)) [] none none []
          some (.one (.relem (append_newline_inside (append_elems el0 (.rlist (innerJoin xs))))), st1)
      | .heading lvl cs =>
        match getMany (renderCore f st (.inner cs)) with
        | none => none
        | some (xs, st1) =>
          let el0 : Elem := .mk ('h' :: Nat.toDigits 10 lvl) [] none none []
          some (.one (.relem (append_elems el0 (.rlist xs))), st1)
      | .paragraph cs =>
        match st with
        | [] => none
        | b :: _ =>
          match getMany (renderCore f st (.inner cs)) with
          | none => none
          | some (xs, st1) =>
            if b then some (.one (.rlist xs), st1)
            else
              some (.one (.relem (append_elems (Elem.mk ("p".data) [] none none []) (.rlist xs))), st1)
      | .quote cs =>
        match getMany (renderCore f (false :: st) (.inner cs)) with
        | none => none
        | some (xs, st1) =>
          let el0 : Elem := .mk ("blockquote".data) [] (some nlP) none []
          let el1 := append_newline_inside (append_elems el0 (.rlist (innerJoin xs)))
          let el2 :=
            if el1.children.isEmpty &&
                (match el1.text with | some p => p.s == "\n\n".data | none => false) then
              el1.setText (some { s := "\n".data, atomic := true })
            else el1
          match st1 with
          | [] => none
          | _ :: restSt => some (.one (.relem el2), restSt)
      | .list start loose cs =>
        let el0 : Elem :=
          match start with
          | some n => .mk ("ol".data)
              (if n == 1 then [] else [("start".data, AttrVal.str (intToStr n))])
              (some nlP) none []
          | none => .mk ("ul".data) [] (some nlP) none []
        match getMany (renderCore f ((!loose) :: st) (.inner cs)) with
        | none => none
        | some (xs, st1) =>
          let el1 := append_newline_inside (append_elems el0 (.rlist (innerJoin xs)))
          match st1 with
          | [] => none
          | _ :: restSt => some (.one (.relem el1), restSt)
      | .listItem cs =>
        match cs with
        | [] => some (.one (.relem (.mk ("li".data) [] none none [])), st)
        | c0 :: csr =>
          match st with
          | [] => none
          | b :: _ =>
            match getMany (renderCore f st (.inner (c0 :: csr))) with
            | none => none
            | some (xs, st1) =>
              let inner0 : List Rendered := [.rstr nlP, .rlist (innerJoin xs), .rstr nlP]
              let inner2 :=
                if b then
                  let inner1 := if c0.isParagraph then inner0.drop 1 else inner0
                  if lastIsParagraph (c0 :: csr) then inner1.dropLast else inner1
                else inner0
              some (.one (.relem (append_elems (Elem.mk ("li".data) [] none none []) (.rlist inner2))), st1)
      | .blockCode lang cs =>
        match cs with
        | [] => none
        | c0 :: _ =>
          match c0.contentOpt with
          | none => none
          | some co =>
            let codeText :=
              pyReplace ("&quot;".data) ("\"".data)
                (pyReplace ("&#x27;".data) ([aposChar]) (htmlEscape co))
            let elCode : Elem := .mk ("code".data)
              (if lang.isEmpty then []
               else [("class".data, AttrVal.str (("language-".data) ++ escape_html lang))])
              (some { s := codeText, atomic := true }) none []
            some (.one (.relem (.mk ("pre".data) [] none none [elCode])), st)
      | .thematicBreak =>
        some (.one (.relem (.mk ("hr".data) [] none none [])), st)
      | .htmlBlock c =>
        some (.one (.relem (wrap_unescaped { s := c, atomic := true })), st)
      | .htmlSpan c =>
        some (.one (.rstr { s := c, atomic := true }), st)
      | .rawText c =>
        some (.one (.rstr { s := escape_html c, atomic := true }), st)
      | .lineBreak soft _ =>
        if soft then some (.one (.rstr { s := "\n".data, atomic := true }), st)
        else some (.one (.relem (.mk ("br".data) [] none (some nlP) [])), st)
      | .strong cs =>
        match getMany (renderCore f st (.inner cs)) with
        | none => none
        | some (xs, st1) =>
          some (.one (.relem (append_elems (Elem.mk ("strong".data) [] none none []) (.rlist xs))), st1)
      | .emphasis cs =>
        match getMany (renderCore f st (.inner cs)) with
        | none => none
        | some (xs, st1) =>
          some (.one (.relem (append_elems (Elem.mk ("em".data) [] none none []) (.rlist xs))), st1)
      | .strikethrough cs =>
        match getMany (renderCore f st (.inner cs)) with
        | none => none
        | some (xs, st1) =>
          some (.one (.relem (append_elems (Elem.mk ("del".data) [] none none []) (.rlist xs))), st1)
      | .inlineCode cs =>
        match cs with
        | [] => none
        | c0 :: _ =>
          match c0.contentOpt with
          | none => none
          | some co =>
            let codeText := pyReplace ("&#x27;".data) ([aposChar]) (htmlEscape co)
            some (.one (.relem (.mk ("code".data) [] (some { s := codeText, atomic := true }) none [])), st)
      | .link target title cs =>
        match getMany (renderCore f st (.inner cs)) with
        | none => none
        | some (xs, st1) =>
          let attrs := [("href".data, AttrVal.str (escape_url target))] ++
            (if title.isEmpty then [] else [("title".data, AttrVal.str (escape_html title))])
          some (.one (.relem (append_elems (Elem.mk ("a".data) attrs none none []) (.rlist xs))), st1)
      | .autoLink target mailto cs =>
        match getMany (renderCore f st (.inner cs)) with
        | none => none
        | some (xs, st1) =>
          let href := if mailto then ("mailto:".data) ++ target else escape_url target
          some (.one (.relem (append_elems (Elem.mk ("a".data) [("href".data, AttrVal.str href)] none none []) (.rlist xs))), st1)
      | .image src title cs =>
        match renderToPlainL f cs with
        | none => none
        | some alt =>
          let attrs := [("src".data, AttrVal.str src), ("alt".data, AttrVal.str alt)] ++
            (if title.isEmpty then [] else [("title".data, AttrVal.str (escape_html title))])
          some (.one (.relem (.mk ("img".data) attrs none none [])), st)
      | .escapeSequence cs =>
        match getMany (renderCore f st (.inner cs)) with
        | none => none
        | some (xs, st1) => some (.one (.rlist xs), st1)
      | .table header cs =>
        match header with
        | some h =>
          match getEl (renderCore f st (.row true h)) with
          | none => none
          | some (rowEl, st1) =>
            match getMany (renderCore f st1 (.inner cs)) with
            | none => none
            | some (xs, st2) =>
              let thead : Elem := .mk ("thead".data) [] (some nlP) (some nlP) [rowEl]
              let tbody := append_elems (Elem.mk ("tbody".data) [] (some nlP) (some nlP) []) (.rlist xs)
              some (.one (.relem (.mk ("table".data) [] (some nlP) none [thead, tbody])), st2)
        | none =>
          match getMany (renderCore f st (.inner cs)) with
          | none => none
          | some (xs, st1) =>
            let tbody := append_elems (Elem.mk ("tbody".data) [] (some nlP) (some nlP) []) (.rlist xs)
            some (.one (.relem (.mk ("table".data) [] (some nlP) none [tbody])), st1)
      | .tableRow cs =>
        match getEl (renderCore f st (.row false (Token.tableRow cs))) with
        | none => none
        | some (e, st1) => some (.one (.relem e), st1)
      | .tableCell align cs =>
        match getEl (renderCore f st (.cell false (Token.tableCell align cs))) with
        | none => none
        | some (e, st1) => some (.one (.relem e), st1)

/-- The dispatching render entry point. -/
def render (f : Nat) (st : RState) (t : Token) : Option (Rendered × RState) :=
  getOne (renderCore f st (.tok t))

/-- render_inner over a list of child tokens. -/
def renderInner (f : Nat) (st : RState) (ts : List Token) : Option (List Rendered × RState) :=
  getMany (renderCore f st (.inner ts))

/-- render_table_cell with its header flag. -/
def renderTableCell (f : Nat) (st : RState) (inHeader : Bool) (t : Token) : Option (Elem × RState) :=
  getEl (renderCore f st (.cell inHeader t))

/-- First index at which the pattern occurs (Python index), scanning
from a given offset. -/
def pyIndexAux (pat : Str) : Str → Nat → Option Nat
  | [], i => if strPrefix pat [] then some i else none
  | s@(_ :: rest), i => if strPrefix pat s then some i else pyIndexAux pat rest (i + 1)

/-- Python index: first occurrence of the pattern, none for ValueError. -/
def pyIndex (s pat : Str) : Option Nat := pyIndexAux pat s 0

/-- Last index at which the pattern occurs (Python rindex), carrying the
latest match seen so far. -/
def pyRindexAux (pat : Str) : Str → Nat → Option Nat → Option Nat
  | [], i, acc => if strPrefix pat [] then some i else acc
  | s@(_ :: rest), i, acc =>
    pyRindexAux pat rest (i + 1) (if strPrefix pat s then some i else acc)

/-- Python rindex: last occurrence of the pattern, none for ValueError. -/
def pyRindex (s pat : Str) : Option Nat := pyRindexAux pat s 0 none

/-- The whitespace set of the Python method strip(). -/
def isPySpace (c : Char) : Bool :=
  c == ' ' || c == '\t' || c == '\n' || c == '\x0D' || c == '\x0B' || c == '\x0C'

/-- Python strip(): remove leading and trailing whitespace. -/
def pyStrip (s : Str) : Str :=
  ((s.dropWhile isPySpace).reverse.dropWhile isPySpace).reverse

/-- Python endswith for our use. -/
def pyEndsWith (s pat : Str) : Bool := strPrefix pat.reverse s.reverse

/-- The opening wrapper tag text searched by _convert_from_elem. -/
def wrapOpen (docTag : Str) : Str := '<' :: (docTag ++ (">".data))

/-- The closing wrapper tag text searched by _convert_from_elem. -/
def wrapClose (docTag : Str) : Str := ("</".data) ++ docTag ++ (">".data)

/-- The empty self-closed wrapper text of the empty-document fallback. -/
def wrapSelfClosed (docTag : Str) : Str := '<' :: (docTag ++ (" />".data))

/-- The top-level wrapper-stripping block of
MarkdownInterop._convert_from_elem, applied to the serialized output
when stripTopLevelTags holds: locate the first opening and last closing
wrapper tag and keep the stripped text between them; on a lookup
failure (ValueError), return the empty string when the stripped output
ENDS WITH an empty self-closed wrapper tag, else raise (error). -/
def stripTopLevel (docTag : Str) (output : Str) : Except Str Str :=
  match pyIndex output (wrapOpen docTag), pyRindex output (wrapClose docTag) with
  | some i, some j =>
    let start := i + docTag.length + 2
    .ok (pyStrip ((output.drop start).take (j - start)))
  | _, _ =>
    if pyEndsWith (pyStrip output) (wrapSelfClosed docTag) then .ok []
    else .error (("Markdown failed to strip top-level tags.").data)

/-- Whether the first token of a list is a Paragraph. -/
def headIsParagraph (l : List Token) : Bool :=
  match l.head? with
  | some t => t.isParagraph
  | none => false

/-- The claim-side description of ListItem rendering, written from the
spec wording: wrap the newline-joined children with one leading and one
trailing newline, except that under active suppression the leading
newline is dropped when the first child is a Paragraph and the trailing
newline is dropped when the last child is a Paragraph. -/
def listItemClaimed (suppress : Bool) (cs : List Token) (xs : List Rendered) : Elem :=
  let lead : List Rendered :=
    if suppress && headIsParagraph cs then [] else [.rstr nlP]
  let trail : List Rendered :=
    if suppress && lastIsParagraph cs then [] else [.rstr nlP]
  append_elems (Elem.mk ("li".data) [] none none [])
    (.rlist (lead ++ ([.rlist (innerJoin xs)] ++ trail)))

/-- Per-character form of the first replacement of htmlEscape. -/
def e1 (c : Char) : Str := if '&' == c then "&amp;".data else [c]

/-- Per-character form of the second replacement of htmlEscape. -/
def e2 (c : Char) : Str := if '"' == c then "&quot;".data else [c]

/-- Per-character form of the third replacement of htmlEscape. -/
def e3 (c : Char) : Str := if aposChar == c then "&#x27;".data else [c]

/-- Per-character form of the fourth replacement of htmlEscape. -/
def e4 (c : Char) : Str := if '<' == c then "&lt;".data else [c]

/-- Per-character form of the fifth replacement of htmlEscape. -/
def e5 (c : Char) : Str := if '>' == c then "&gt;".data else [c]

/-- The per-character characterisation of htmlEscape. -/
def escAll (c : Char) : Str :=
  if '&' == c then "&amp;".data
  else if '"' == c then "&quot;".data
  else if aposChar == c then "&#x27;".data
  else if '<' == c then "&lt;".data
  else if '>' == c then "&gt;".data
  else [c]

/-- The per-character characterisation of escape_html after the
apostrophe fixup: as escAll but the apostrophe stays literal. -/
def escNoApos (c : Char) : Str :=
  if '&' == c then "&amp;".data
  else if '"' == c then "&quot;".data
  else if '<' == c then "&lt;".data
  else if '>' == c then "&gt;".data
  else [c]

/-- C1, counterexample: rendering an HTMLSpan token yields a marked raw
STRING, not any element, so in particular not the unsafe-text wrapper
node the claim asserts. -/
theorem c1_counterexample :
    render 1 [false] (Token.htmlSpan ("x".data))
      = some (.rstr { s := "x".data, atomic := true }, [false]) ∧
    (Rendered.rstr { s := "x".data, atomic := true }).isElem = false :=
  ⟨rfl, rfl⟩

/-- C1, amended: for every HTMLBlock token the renderer produces the
unsafe-text wrapper around the raw content; for every HTMLSpan token it
produces the raw content verbatim as an AtomicString text run, with no
wrapper node. -/
theorem c1_html_passthrough :
    ∀ (f : Nat) (st : RState) (c : Str),
      render (f + 1) st (Token.htmlBlock c)
        = some (.relem (wrap_unescaped { s := c, atomic := true }), st) ∧
      render (f + 1) st (Token.htmlSpan c)
        = some (.rstr { s := c, atomic := true }, st) :=
  fun _ _ _ => ⟨rfl, rfl⟩

/-- C3, counterexample: a marker carried only by the right-hand side is
dropped by safe_concat, and appending a marked run as element text via
append_elems stores a plain (unmarked) text. -/
theorem c3_counterexample :
    safe_concat (some { s := "x".data, atomic := false }) { s := "y".data, atomic := true }
      = { s := "xy".data, atomic := false } ∧
    append_elems (Elem.mk ("p".data) [] none none []) (.rstr { s := "y".data, atomic := true })
      = Elem.mk ("p".data) [] (some { s := "y".data, atomic := false }) none [] :=
  ⟨rfl, rfl⟩

/-- C3, amended: safe_concat preserves the do-not-re-escape marker
exactly when the LEFT side carries it; the result content is the
concatenation, and a marker carried only by the right side is lost. -/
theorem c3_safe_concat_left_marker :
    ∀ (a : Option PyStr) (b : PyStr),
      safe_concat a b =
        { s := (match a with | some av => av.s | none => []) ++ b.s,
          atomic := match a with | some av => av.atomic | none => false } := by
  intro a b
  cases a with
  | none => simp [safe_concat]
  | some av => cases hav : av.atomic <;> simp [safe_concat, hav]

/-- C10: rendering InlineCode or CodeBlock reads the content of the
first child; on an empty children sequence both renderers fail (the
Python IndexError is the none result), and with a RawText first child
they produce the code element from that content. -/
theorem c10_code_children_required :
    ∀ (f : Nat) (st : RState) (lang co : Str) (ts : List Token),
      render (f + 1) st (Token.inlineCode []) = none ∧
      render (f + 1) st (Token.blockCode lang []) = none ∧
      render (f + 1) st (Token.inlineCode (Token.rawText co :: ts))
        = some (.relem (.mk ("code".data) []
            (some { s := pyReplace ("&#x27;".data) ([aposChar]) (htmlEscape co),
                    atomic := true }) none []), st) ∧
      render (f + 1) st (Token.blockCode lang (Token.rawText co :: ts))
        = some (.relem (.mk ("pre".data) [] none none
            [.mk ("code".data)
              (if lang.isEmpty then []
               else [("class".data, AttrVal.str (("language-".data) ++ escape_html lang))])
              (some { s := pyReplace ("&quot;".data) ("\"".data)
                        (pyReplace ("&#x27;".data) ([aposChar]) (htmlEscape co)),
                      atomic := true })
              none []]), st) :=
  fun _ _ _ _ _ => ⟨rfl, rfl, rfl, rfl⟩

/-- C4, counterexample: the img src attribute is the raw token src,
which differs from escape_url of the target on a target containing a
space. -/
theorem c4_counterexample :
    render 2 [false] (Token.image ("a b".data) [] [])
      = some (.relem (.mk ("img".data)
          [("src".data, AttrVal.str ("a b".data)), ("alt".data, AttrVal.str [])]
          none none []), [false]) ∧
    escape_url ("a b".data) = "a%20b".data ∧
    ("a b".data : Str) ≠ "a%20b".data :=
  ⟨rfl, rfl, by decide⟩

/-- C4, amended: escape_url is applied to link targets and to non-mail
autolink targets (mail autolinks get the verbatim mailto target), while
for Image tokens the emitted src attribute is the raw token src,
unescaped. -/
theorem c4_url_escaping_targets :
    ∀ (f : Nat) (st : RState) (target title src : Str) (cs : List Token),
      (render (f + 1) st (Token.link target title cs)
        = (renderInner f st cs).map (fun p =>
            (.relem (append_elems (Elem.mk ("a".data)
              ([("href".data, AttrVal.str (escape_url target))] ++
               (if title.isEmpty then []
                else [("title".data, AttrVal.str (escape_html title))]))
              none none []) (.rlist p.1)), p.2))) ∧
      (render (f + 1) st (Token.autoLink target false cs)
        = (renderInner f st cs).map (fun p =>
            (.relem (append_elems (Elem.mk ("a".data)
              [("href".data, AttrVal.str (escape_url target))] none none []) (.rlist p.1)), p.2))) ∧
      (render (f + 1) st (Token.autoLink target true cs)
        = (renderInner f st cs).map (fun p =>
            (.relem (append_elems (Elem.mk ("a".data)
              [("href".data, AttrVal.str (("mailto:".data) ++ target))] none none []) (.rlist p.1)), p.2))) ∧
      (render (f + 1) st (Token.image src title cs)
        = (renderToPlainL f cs).map (fun alt =>
            (.relem (.mk ("img".data)
              ([("src".data, AttrVal.str src), ("alt".data, AttrVal.str alt)] ++
               (if title.isEmpty then []
                else [("title".data, AttrVal.str (escape_html title))]))
              none none []), st))) := by
  intro f st target title src cs
  refine ⟨?_, ?_, ?_, ?_⟩
  · show getOne (renderCore (f + 1) st (.tok (.link target title cs))) = _
    simp only [renderCore, renderInner]
    cases h : getMany (renderCore f st (RCall.inner cs)) with
    | none => simp [getOne]
    | some p => obtain ⟨xs, st1⟩ := p; simp [getOne]
  · show getOne (renderCore (f + 1) st (.tok (.autoLink target false cs))) = _
    simp only [renderCore, renderInner]
    cases h : getMany (renderCore f st (RCall.inner cs)) with
    | none => simp [getOne]
    | some p => obtain ⟨xs, st1⟩ := p; simp [getOne]
  · show getOne (renderCore (f + 1) st (.tok (.autoLink target true cs))) = _
    simp only [renderCore, renderInner]
    cases h : getMany (renderCore f st (RCall.inner cs)) with
    | none => simp [getOne]
    | some p => obtain ⟨xs, st1⟩ := p; simp [getOne]
  · show getOne (renderCore (f + 1) st (.tok (.image src title cs))) = _
    simp only [renderCore]
    cases h : renderToPlainL f cs with
    | none => simp [getOne]
    | some alt => simp [getOne]

/-- C7: a table cell renders as th in a header row and td otherwise;
the align attribute is right for alignment 1, center for 0, left when
unset; and the emitted align attribute never takes a fourth value (any
other alignment yields no attribute at all). -/
theorem c7_table_cell_alignment :
    (∀ (f : Nat) (st : RState) (inHeader : Bool) (a : Option Int) (cs : List Token),
      renderTableCell (f + 1) st inHeader (Token.tableCell a cs)
        = (renderInner f st cs).map (fun p =>
            (append_elems (Elem.mk (if inHeader then "th".data else "td".data)
              (alignAttrOf a) none (some nlP) []) (.rlist p.1), p.2))) ∧
    alignAttrOf (some 1) = [("align".data, AttrVal.str ("right".data))] ∧
    alignAttrOf (some 0) = [("align".data, AttrVal.str ("center".data))] ∧
    alignAttrOf none = [("align".data, AttrVal.str ("left".data))] ∧
    (∀ a : Option Int,
      alignAttrOf a = [] ∨
      alignAttrOf a = [("align".data, AttrVal.str ("left".data))] ∨
      alignAttrOf a = [("align".data, AttrVal.str ("center".data))] ∨
      alignAttrOf a = [("align".data, AttrVal.str ("right".data))]) := by
  refine ⟨?_, rfl, rfl, rfl, ?_⟩
  · intro f st inHeader a cs
    show getEl (renderCore (f + 1) st (.cell inHeader (.tableCell a cs))) = _
    simp only [renderCore, renderInner]
    cases h : getMany (renderCore f st (RCall.inner cs)) with
    | none => simp [getEl]
    | some p => obtain ⟨xs, st1⟩ := p; simp [getEl]
  · intro a
    cases a with
    | none => exact Or.inr (Or.inl rfl)
    | some v =>
      simp only [alignAttrOf]
      by_cases h0 : (v == 0) = true
      · rw [if_pos h0]; exact Or.inr (Or.inr (Or.inl rfl))
      · rw [if_neg h0]
        by_cases h1 : (v == 1) = true
        · rw [if_pos h1]; exact Or.inr (Or.inr (Or.inr rfl))
        · rw [if_neg h1]; exact Or.inl rfl

/-- C6: an empty ListItem renders as an empty li; otherwise the joined
children are wrapped with one leading and one trailing newline, except
that under active paragraph suppression the leading newline is dropped
when the first child is a Paragraph and the trailing newline is dropped
when the last child is a Paragraph. -/
theorem c6_list_item_newlines :
    (∀ (f : Nat) (st : RState),
      render (f + 1) st (Token.listItem [])
        = some (.relem (.mk ("li".data) [] none none []), st)) ∧
    (∀ (f : Nat) (b : Bool) (rest : RState) (c0 : Token) (csr : List Token),
      render (f + 1) (b :: rest) (Token.listItem (c0 :: csr))
        = (renderInner f (b :: rest) (c0 :: csr)).map (fun p =>
            (.relem (listItemClaimed b (c0 :: csr) p.1), p.2))) := by
  refine ⟨fun _ _ => rfl, ?_⟩
  intro f b rest c0 csr
  show getOne (renderCore (f + 1) (b :: rest) (.tok (.listItem (c0 :: csr)))) = _
  simp only [renderCore, renderInner]
  cases h : getMany (renderCore f (b :: rest) (RCall.inner (c0 :: csr))) with
  | none => simp [getOne]
  | some p =>
    obtain ⟨xs, st1⟩ := p
    cases b with
    | false => simp [getOne, listItemClaimed, headIsParagraph]
    | true =>
      cases hp : c0.isParagraph <;> cases hq : lastIsParagraph (c0 :: csr) <;>
        simp [getOne, listItemClaimed, headIsParagraph, hp, hq]

theorem getOne_inv {o : Option (RRes × RState)} {r : Rendered} {st : RState}
    (h : getOne o = some (r, st)) : o = some (.one r, st) := by
  cases o with
  | none => simp [getOne] at h
  | some p =>
    obtain ⟨res, st0⟩ := p
    cases res with
    | one r0 =>
      simp [getOne] at h
      rw [h.1, h.2]
    | many rs => simp [getOne] at h
    | el e => simp [getOne] at h
    | els es => simp [getOne] at h

theorem getMany_inv {o : Option (RRes × RState)} {rs : List Rendered} {st : RState}
    (h : getMany o = some (rs, st)) : o = some (.many rs, st) := by
  cases o with
  | none => simp [getMany] at h
  | some p =>
    obtain ⟨res, st0⟩ := p
    cases res with
    | many rs0 =>
      simp [getMany] at h
      rw [h.1, h.2]
    | one r => simp [getMany] at h
    | el e => simp [getMany] at h
    | els es => simp [getMany] at h

theorem getEl_inv {o : Option (RRes × RState)} {e : Elem} {st : RState}
    (h : getEl o = some (e, st)) : o = some (.el e, st) := by
  cases o with
  | none => simp [getEl] at h
  | some p =>
    obtain ⟨res, st0⟩ := p
    cases res with
    | el e0 =>
      simp [getEl] at h
      rw [h.1, h.2]
    | one r => simp [getEl] at h
    | many rs => simp [getEl] at h
    | els es => simp [getEl] at h

theorem getEls_inv {o : Option (RRes × RState)} {es : List Elem} {st : RState}
    (h : getEls o = some (es, st)) : o = some (.els es, st) := by
  cases o with
  | none => simp [getEls] at h
  | some p =>
    obtain ⟨res, st0⟩ := p
    cases res with
    | els es0 =>
      simp [getEls] at h
      rw [h.1, h.2]
    | one r => simp [getEls] at h
    | many rs => simp [getEls] at h
    | el e => simp [getEls] at h

/-- Every renderer call that returns normally leaves the suppression
stack exactly as it found it: each push (blockquote pushes false, list
pushes the negation of looseness) is popped exactly once on the way
out. -/
theorem renderCoreStackRestored :
    ∀ (f : Nat) (st : RState) (call : RCall) (res : RRes) (st2 : RState),
      renderCore f st call = some (res, st2) → st2 = st := by
  intro f
  induction f with
  | zero => intro st call res st2 h; simp [renderCore] at h
  | succ f ih =>
    intro st call res st2 h
    cases call with
    | inner ts =>
      cases ts with
      | nil =>
        simp only [renderCore] at h
        simp at h
        exact h.2.symm
      | cons t ts =>
        simp only [renderCore] at h
        cases h1 : getOne (renderCore f st (RCall.tok t)) with
        | none => rw [h1] at h; simp at h
        | some p =>
          obtain ⟨r, st1⟩ := p
          rw [h1] at h
          simp only [] at h
          have e1 := ih st (.tok t) _ _ (getOne_inv h1)
          cases h2 : getMany (renderCore f st1 (RCall.inner ts)) with
          | none => rw [h2] at h; simp at h
          | some q =>
            obtain ⟨rs, stq⟩ := q
            rw [h2] at h
            have e2 := ih st1 (.inner ts) _ _ (getMany_inv h2)
            simp at h
            rw [← h.2, e2, e1]
    | cells isHeader ts =>
      cases ts with
      | nil =>
        simp only [renderCore] at h
        simp at h
        exact h.2.symm
      | cons t ts =>
        simp only [renderCore] at h
        cases h1 : getEl (renderCore f st (RCall.cell isHeader t)) with
        | none => rw [h1] at h; simp at h
        | some p =>
          obtain ⟨e, st1⟩ := p
          rw [h1] at h
          simp only [] at h
          have e1 := ih st (.cell isHeader t) _ _ (getEl_inv h1)
          cases h2 : getEls (renderCore f st1 (RCall.cells isHeader ts)) with
          | none => rw [h2] at h; simp at h
          | some q =>
            obtain ⟨es, stq⟩ := q
            rw [h2] at h
            have e2 := ih st1 (.cells isHeader ts) _ _ (getEls_inv h2)
            simp at h
            rw [← h.2, e2, e1]
    | cell inHeader t =>
      cases t <;> simp only [renderCore] at h
      case tableCell align cs =>
        cases h1 : getMany (renderCore f st (RCall.inner cs)) with
        | none => rw [h1] at h; simp at h
        | some p =>
          obtain ⟨xs, st1⟩ := p
          rw [h1] at h
          have e1 := ih st (.inner cs) _ _ (getMany_inv h1)
          simp at h
          rw [← h.2]; exact e1
      all_goals simp at h
    | row isHeader t =>
      simp only [renderCore] at h
      cases hc : t.childrenOpt with
      | none => rw [hc] at h; simp at h
      | some cs =>
        rw [hc] at h
        simp only [] at h
        cases h1 : getEls (renderCore f st (RCall.cells isHeader cs)) with
        | none => rw [h1] at h; simp at h
        | some p =>
          obtain ⟨es, st1⟩ := p
          rw [h1] at h
          have e1 := ih st (.cells isHeader cs) _ _ (getEls_inv h1)
          simp at h
          rw [← h.2]; exact e1
    | tok t =>
      cases t with
      | document rootTag cs =>
        simp only [renderCore] at h
        cases h1 : getMany (renderCore f st (RCall.inner cs)) with
        | none => rw [h1] at h; simp at h
        | some p =>
          obtain ⟨xs, st1⟩ := p
          rw [h1] at h
          have e1 := ih st (.inner cs) _ _ (getMany_inv h1)
          simp at h
          rw [← h.2]; exact e1
      | heading lvl cs =>
        simp only [renderCore] at h
        cases h1 : getMany (renderCore f st (RCall.inner cs)) with
        | none => rw [h1] at h; simp at h
        | some p =>
          obtain ⟨xs, st1⟩ := p
          rw [h1] at h
          have e1 := ih st (.inner cs) _ _ (getMany_inv h1)
          simp at h
          rw [← h.2]; exact e1
      | paragraph cs =>
        simp only [renderCore] at h
        cases st with
        | nil => simp at h
        | cons b rest =>
          cases h1 : getMany (renderCore f (b :: rest) (RCall.inner cs)) with
          | none => rw [h1] at h; simp at h
          | some p =>
            obtain ⟨xs, st1⟩ := p
            rw [h1] at h
            have e1 := ih (b :: rest) (.inner cs) _ _ (getMany_inv h1)
            cases b with
            | true =>
              simp at h
              rw [← h.2]; exact e1
            | false =>
              simp at h
              rw [← h.2]; exact e1
      | quote cs =>
        simp only [renderCore] at h
        cases h1 : getMany (renderCore f (false :: st) (RCall.inner cs)) with
        | none => rw [h1] at h; simp at h
        | some p =>
          obtain ⟨xs, st1⟩ := p
          rw [h1] at h
          have e1 := ih (false :: st) (.inner cs) _ _ (getMany_inv h1)
          subst e1
          simp at h
          exact h.2.symm
      | list start loose cs =>
        simp only [renderCore] at h
        cases h1 : getMany (renderCore f ((!loose) :: st) (RCall.inner cs)) with
        | none => rw [h1] at h; simp at h
        | some p =>
          obtain ⟨xs, st1⟩ := p
          rw [h1] at h
          have e1 := ih ((!loose) :: st) (.inner cs) _ _ (getMany_inv h1)
          subst e1
          simp at h
          exact h.2.symm
      | listItem cs =>
        cases cs with
        | nil =>
          simp only [renderCore] at h
          simp at h
          exact h.2.symm
        | cons c0 csr =>
          simp only [renderCore] at h
          cases st with
          | nil => simp at h
          | cons b rest =>
            cases h1 : getMany (renderCore f (b :: rest) (RCall.inner (c0 :: csr))) with
            | none => rw [h1] at h; simp at h
            | some p =>
              obtain ⟨xs, st1⟩ := p
              rw [h1] at h
              have e1 := ih (b :: rest) (.inner (c0 :: csr)) _ _ (getMany_inv h1)
              simp at h
              rw [← h.2]; exact e1
      | blockCode lang cs =>
        cases cs with
        | nil => simp only [renderCore] at h; simp at h
        | cons c0 csr =>
          simp only [renderCore] at h
          cases hc : c0.contentOpt with
          | none => rw [hc] at h; simp at h
          | some co =>
            rw [hc] at h
            simp at h
            exact h.2.symm
      | thematicBreak =>
        simp only [renderCore] at h
        simp at h
        exact h.2.symm
      | htmlBlock c =>
        simp only [renderCore] at h
        simp at h
        exact h.2.symm
      | htmlSpan c =>
        simp only [renderCore] at h
        simp at h
        exact h.2.symm
      | rawText c =>
        simp only [renderCore] at h
        simp at h
        exact h.2.symm
      | lineBreak soft c =>
        simp only [renderCore] at h
        cases soft with
        | true => simp at h; exact h.2.symm
        | false => simp at h; exact h.2.symm
      | strong cs =>
        simp only [renderCore] at h
        cases h1 : getMany (renderCore f st (RCall.inner cs)) with
        | none => rw [h1] at h; simp at h
        | some p =>
          obtain ⟨xs, st1⟩ := p
          rw [h1] at h
          have e1 := ih st (.inner cs) _ _ (getMany_inv h1)
          simp at h
          rw [← h.2]; exact e1
      | emphasis cs =>
        simp only [renderCore] at h
        cases h1 : getMany (renderCore f st (RCall.inner cs)) with
        | none => rw [h1] at h; simp at h
        | some p =>
          obtain ⟨xs, st1⟩ := p
          rw [h1] at h
          have e1 := ih st (.inner cs) _ _ (getMany_inv h1)
          simp at h
          rw [← h.2]; exact e1
      | strikethrough cs =>
        simp only [renderCore] at h
        cases h1 : getMany (renderCore f st (RCall.inner cs)) with
        | none => rw [h1] at h; simp at h
        | some p =>
          obtain ⟨xs, st1⟩ := p
          rw [h1] at h
          have e1 := ih st (.inner cs) _ _ (getMany_inv h1)
          simp at h
          rw [← h.2]; exact e1
      | inlineCode cs =>
        cases cs with
        | nil => simp only [renderCore] at h; simp at h
        | cons c0 csr =>
          simp only [renderCore] at h
          cases hc : c0.contentOpt with
          | none => rw [hc] at h; simp at h
          | some co =>
            rw [hc] at h
            simp at h
            exact h.2.symm
      | link target title cs =>
        simp only [renderCore] at h
        cases h1 : getMany (renderCore f st (RCall.inner cs)) with
        | none => rw [h1] at h; simp at h
        | some p =>
          obtain ⟨xs, st1⟩ := p
          rw [h1] at h
          have e1 := ih st (.inner cs) _ _ (getMany_inv h1)
          simp at h
          rw [← h.2]; exact e1
      | autoLink target mailto cs =>
        simp only [renderCore] at h
        cases h1 : getMany (renderCore f st (RCall.inner cs)) with
        | none => rw [h1] at h; simp at h
        | some p =>
          obtain ⟨xs, st1⟩ := p
          rw [h1] at h
          have e1 := ih st (.inner cs) _ _ (getMany_inv h1)
          simp at h
          rw [← h.2]; exact e1
      | image src title cs =>
        simp only [renderCore] at h
        cases hr : renderToPlainL f cs with
        | none => rw [hr] at h; simp at h
        | some alt =>
          rw [hr] at h
          simp at h
          exact h.2.symm
      | escapeSequence cs =>
        simp only [renderCore] at h
        cases h1 : getMany (renderCore f st (RCall.inner cs)) with
        | none => rw [h1] at h; simp at h
        | some p =>
          obtain ⟨xs, st1⟩ := p
          rw [h1] at h
          have e1 := ih st (.inner cs) _ _ (getMany_inv h1)
          simp at h
          rw [← h.2]; exact e1
      | table header cs =>
        cases header with
        | some hd =>
          simp only [renderCore] at h
          cases h1 : getEl (renderCore f st (RCall.row true hd)) with
          | none => rw [h1] at h; simp at h
          | some p =>
            obtain ⟨rowEl, st1⟩ := p
            rw [h1] at h
            simp only [] at h
            have e1 := ih st (.row true hd) _ _ (getEl_inv h1)
            cases h2 : getMany (renderCore f st1 (RCall.inner cs)) with
            | none => rw [h2] at h; simp at h
            | some q =>
              obtain ⟨xs, stq⟩ := q
              rw [h2] at h
              have e2 := ih st1 (.inner cs) _ _ (getMany_inv h2)
              simp at h
              rw [← h.2, e2, e1]
        | none =>
          simp only [renderCore] at h
          cases h1 : getMany (renderCore f st (RCall.inner cs)) with
          | none => rw [h1] at h; simp at h
          | some p =>
            obtain ⟨xs, st1⟩ := p
            rw [h1] at h
            have e1 := ih st (.inner cs) _ _ (getMany_inv h1)
            simp at h
            rw [← h.2]; exact e1
      | tableRow cs =>
        simp only [renderCore] at h
        cases h1 : getEl (renderCore f st (RCall.row false (Token.tableRow cs))) with
        | none => rw [h1] at h; simp at h
        | some p =>
          obtain ⟨e, st1⟩ := p
          rw [h1] at h
          have e1 := ih st (.row false (Token.tableRow cs)) _ _ (getEl_inv h1)
          simp at h
          rw [← h.2]; exact e1
      | tableCell align cs =>
        simp only [renderCore] at h
        cases h1 : getEl (renderCore f st (RCall.cell false (Token.tableCell align cs))) with
        | none => rw [h1] at h; simp at h
        | some p =>
          obtain ⟨e, st1⟩ := p
          rw [h1] at h
          have e1 := ih st (.cell false (Token.tableCell align cs)) _ _ (getEl_inv h1)
          simp at h
          rw [← h.2]; exact e1

/-- C9: the suppression stack starts as the one-element stack holding
false, and rendering any token returns the stack to its pre-call state
(each push by blockquote or list rendering is popped exactly once
before returning). -/
theorem c9_suppress_stack_balanced :
    initialSuppressStack = [false] ∧
    ∀ (f : Nat) (st : RState) (t : Token) (r : Rendered) (st2 : RState),
      render f st t = some (r, st2) → st2 = st := by
  refine ⟨rfl, ?_⟩
  intro f st t r st2 h
  exact renderCoreStackRestored f st (.tok t) _ _ (getOne_inv h)

/-- Witness: the stack-restoration theorem applied at a concrete render
of a thematic break from the initial stack. -/
theorem c9_suppress_stack_balanced_witness : ([false] : RState) = [false] :=
  c9_suppress_stack_balanced.2 1 [false] Token.thematicBreak
    (Rendered.relem (Elem.mk ("hr".data) [] none none [])) [false] rfl

/-- C2, counterexample: the installed pattern rejects the unterminated
named reference amp-without-semicolon, which the stdlib pattern
accepts, and the unescape step leaves such an input unresolved. -/
theorem c2_counterexample :
    charrefMatchPatched ("amp".data) = none ∧
    charrefMatchStdlib ("amp".data) = some ("amp".data, []) ∧
    htmlUnescape ("&amp".data) = "&amp".data :=
  ⟨rfl, rfl, rfl⟩

/-- C2, amended: the installed pattern REQUIRES the terminating
semicolon; every reference it matches is also matched by the stdlib
pattern (it is a narrowing, not a widening), unterminated named
references such as amp-without-semicolon are rejected, and the
unescape step leaves them unresolved. -/
theorem c2_charref_pattern_narrowing :
    (∀ (s : Str) (p : Str × Str),
      charrefMatchPatched s = some p → (charrefMatchStdlib s).isSome = true) ∧
    charrefMatchPatched ("amp".data) = none ∧
    htmlUnescape ("&amp".data) = "&amp".data := by
  refine ⟨?_, rfl, rfl⟩
  intro s p h
  cases s with
  | nil => simp [charrefMatchPatched] at h
  | cons c rest =>
    simp only [charrefMatchPatched] at h
    simp only [charrefMatchStdlib]
    split at h
    · -- numeric branches
      rename_i hc
      rw [if_pos hc]
      cases rest with
      | nil => simp at h
      | cons d rest2 =>
        simp only [] at h
        simp only []
        split at h
        · rename_i hd
          rw [if_pos hd]
          split at h
          · rename_i hcond
            simp only [Bool.and_eq_true] at hcond
            have hE : (rest2.takeWhile isHexDigitCh).isEmpty = false := by
              have := hcond.1
              revert this
              cases (rest2.takeWhile isHexDigitCh).isEmpty <;> simp
            simp only [hE, Bool.false_eq_true, if_false]
            split <;> rfl
          · simp at h
        · rename_i hd
          rw [if_neg hd]
          split at h
          · rename_i hcond
            simp only [Bool.and_eq_true] at hcond
            have hE : ((d :: rest2).takeWhile isAsciiDigit).isEmpty = false := by
              have := hcond.1
              revert this
              cases ((d :: rest2).takeWhile isAsciiDigit).isEmpty <;> simp
            simp only [hE, Bool.false_eq_true, if_false]
            split <;> rfl
          · simp at h
    · -- named branch
      rename_i hc
      rw [if_neg hc]
      split at h
      · rename_i hcond
        simp only [Bool.and_eq_true] at hcond
        have hE : ((c :: rest).takeWhile isCharrefNameChar).isEmpty = false := by
          have := hcond.1.1
          revert this
          cases ((c :: rest).takeWhile isCharrefNameChar).isEmpty <;> simp
        simp only [hE, Bool.false_eq_true, if_false]
        split <;> rfl
      · simp at h

/-- Witness: the narrowing theorem applied at the concrete terminated
reference amp-with-semicolon, which the patched pattern matches. -/
theorem c2_charref_pattern_narrowing_witness :
    (charrefMatchStdlib ("amp;".data)).isSome = true :=
  c2_charref_pattern_narrowing.1 ("amp;".data) (("amp;".data), []) rfl


theorem cmap_append (f : Char → Str) : ∀ a b : Str, cmap f (a ++ b) = cmap f a ++ cmap f b := by
  intro a b
  induction a with
  | nil => simp [cmap]
  | cons c rest ih => simp [cmap, ih]

theorem cmap_cmap (f g : Char → Str) : ∀ s : Str,
    cmap g (cmap f s) = cmap (fun c => cmap g (f c)) s := by
  intro s
  induction s with
  | nil => rfl
  | cons c rest ih => simp [cmap, cmap_append, ih]

theorem cmap_congr {f g : Char → Str} (h : ∀ c, f c = g c) : ∀ s : Str, cmap f s = cmap g s := by
  intro s
  induction s with
  | nil => rfl
  | cons c rest ih => simp [cmap, h c, ih]

theorem pyReplaceF_single (c : Char) (t : Str) : ∀ (s : Str) (fu : Nat), s.length ≤ fu →
    pyReplaceF fu [c] t s = cmap (fun d => if c == d then t else [d]) s := by
  intro s
  induction s with
  | nil => intro fu _; cases fu <;> rfl
  | cons d rest ih =>
    intro fu hfu
    cases fu with
    | zero => simp at hfu
    | succ g =>
      have hpre : (strPrefix [c] (d :: rest)) = (c == d) := by
        simp [strPrefix]
      simp only [pyReplaceF, List.isEmpty, Bool.not_false, Bool.true_and, hpre, cmap]
      by_cases hd : (c == d) = true
      · simp only [hd, if_true]
        have hdrop : List.drop ([c] : Str).length (d :: rest) = rest := rfl
        rw [hdrop, ih g (by simp at hfu; omega)]
      · simp only [Bool.not_eq_true] at hd
        simp only [hd, Bool.false_eq_true, if_false]
        rw [ih g (by simp at hfu; omega)]
        rfl

theorem pyReplace_single (c : Char) (t : Str) (s : Str) :
    pyReplace [c] t s = cmap (fun d => if c == d then t else [d]) s :=
  pyReplaceF_single c t s s.length (Nat.le_refl _)

theorem r1_cmap (s : Str) : pyReplace ("&".data) ("&amp;".data) s = cmap e1 s :=
  (pyReplace_single '&' ("&amp;".data) s).trans (cmap_congr (fun _ => rfl) s)

theorem r2_cmap (s : Str) : pyReplace ("\"".data) ("&quot;".data) s = cmap e2 s :=
  (pyReplace_single '"' ("&quot;".data) s).trans (cmap_congr (fun _ => rfl) s)

theorem r3_cmap (s : Str) : pyReplace ([aposChar]) ("&#x27;".data) s = cmap e3 s :=
  (pyReplace_single aposChar ("&#x27;".data) s).trans (cmap_congr (fun _ => rfl) s)

theorem r4_cmap (s : Str) : pyReplace ("<".data) ("&lt;".data) s = cmap e4 s :=
  (pyReplace_single '<' ("&lt;".data) s).trans (cmap_congr (fun _ => rfl) s)

theorem r5_cmap (s : Str) : pyReplace (">".data) ("&gt;".data) s = cmap e5 s :=
  (pyReplace_single '>' ("&gt;".data) s).trans (cmap_congr (fun _ => rfl) s)

theorem htmlEscape_cmap (s : Str) : htmlEscape s = cmap escAll s := by
  unfold htmlEscape
  rw [r1_cmap, r2_cmap, r3_cmap, r4_cmap, r5_cmap]
  rw [cmap_cmap, cmap_cmap, cmap_cmap, cmap_cmap]
  refine cmap_congr (fun c => ?_) s
  by_cases h1 : ('&' == c) = true
  · rw [← eq_of_beq h1]; rfl
  by_cases h2 : ('"' == c) = true
  · rw [← eq_of_beq h2]; rfl
  by_cases h3 : (aposChar == c) = true
  · rw [← eq_of_beq h3]; rfl
  by_cases h4 : ('<' == c) = true
  · rw [← eq_of_beq h4]; rfl
  by_cases h5 : ('>' == c) = true
  · rw [← eq_of_beq h5]; rfl
  simp only [Bool.not_eq_true] at h1 h2 h3 h4 h5
  rw [beq_eq_false_iff_ne] at h1 h2 h3 h4 h5
  simp [e1, e2, e3, e4, e5, escAll, cmap, h1, h2, h3, h4, h5]

theorem aposfix_amp (g : Nat) (R : Str) :
    pyReplaceF (g + 5) ("&#x27;".data) ([aposChar]) ("&amp;".data ++ R)
      = "&amp;".data ++ pyReplaceF g ("&#x27;".data) ([aposChar]) R := rfl

theorem aposfix_quot (g : Nat) (R : Str) :
    pyReplaceF (g + 6) ("&#x27;".data) ([aposChar]) ("&quot;".data ++ R)
      = "&quot;".data ++ pyReplaceF g ("&#x27;".data) ([aposChar]) R := rfl

theorem aposfix_apos (g : Nat) (R : Str) :
    pyReplaceF (g + 1) ("&#x27;".data) ([aposChar]) ("&#x27;".data ++ R)
      = aposChar :: pyReplaceF g ("&#x27;".data) ([aposChar]) R := rfl

theorem aposfix_lt (g : Nat) (R : Str) :
    pyReplaceF (g + 4) ("&#x27;".data) ([aposChar]) ("&lt;".data ++ R)
      = "&lt;".data ++ pyReplaceF g ("&#x27;".data) ([aposChar]) R := rfl

theorem aposfix_gt (g : Nat) (R : Str) :
    pyReplaceF (g + 4) ("&#x27;".data) ([aposChar]) ("&gt;".data ++ R)
      = "&gt;".data ++ pyReplaceF g ("&#x27;".data) ([aposChar]) R := rfl

theorem aposfix_other (g : Nat) (c : Char) (R : Str) (h : ('&' == c) = false) :
    pyReplaceF (g + 1) ("&#x27;".data) ([aposChar]) (c :: R)
      = c :: pyReplaceF g ("&#x27;".data) ([aposChar]) R := by
  have hpre : (strPrefix ("&#x27;".data) (c :: R)) = false := by
    show (strPrefix (('&' : Char) :: "#x27;".data) (c :: R)) = false
    simp [strPrefix, h]
  simp [pyReplaceF, hpre]

theorem aposfix_cmap : ∀ (y : Str) (fu : Nat), (cmap escAll y).length ≤ fu →
    pyReplaceF fu ("&#x27;".data) ([aposChar]) (cmap escAll y) = cmap escNoApos y := by
  intro y
  induction y with
  | nil => intro fu _; cases fu <;> rfl
  | cons c rest ih =>
    intro fu hfu
    by_cases h1 : ('&' == c) = true
    · rw [← eq_of_beq h1] at hfu ⊢
      have h0 : (cmap escAll ('&' :: rest)).length = 5 + (cmap escAll rest).length := by
        show ("&amp;".data ++ cmap escAll rest).length = _
        rw [List.length_append]; rfl
      rw [h0] at hfu
      obtain ⟨g, rfl⟩ : ∃ g, fu = g + 5 := ⟨fu - 5, by omega⟩
      show pyReplaceF (g + 5) ("&#x27;".data) ([aposChar]) ("&amp;".data ++ cmap escAll rest)
        = "&amp;".data ++ cmap escNoApos rest
      rw [aposfix_amp, ih g (by omega)]
    by_cases h2 : ('"' == c) = true
    · rw [← eq_of_beq h2] at hfu ⊢
      have h0 : (cmap escAll ('"' :: rest)).length = 6 + (cmap escAll rest).length := by
        show ("&quot;".data ++ cmap escAll rest).length = _
        rw [List.length_append]; rfl
      rw [h0] at hfu
      obtain ⟨g, rfl⟩ : ∃ g, fu = g + 6 := ⟨fu - 6, by omega⟩
      show pyReplaceF (g + 6) ("&#x27;".data) ([aposChar]) ("&quot;".data ++ cmap escAll rest)
        = "&quot;".data ++ cmap escNoApos rest
      rw [aposfix_quot, ih g (by omega)]
    by_cases h3 : (aposChar == c) = true
    · rw [← eq_of_beq h3] at hfu ⊢
      have h0 : (cmap escAll (aposChar :: rest)).length = 6 + (cmap escAll rest).length := by
        show ("&#x27;".data ++ cmap escAll rest).length = _
        rw [List.length_append]; rfl
      rw [h0] at hfu
      obtain ⟨g, rfl⟩ : ∃ g, fu = g + 1 := ⟨fu - 1, by omega⟩
      show pyReplaceF (g + 1) ("&#x27;".data) ([aposChar]) ("&#x27;".data ++ cmap escAll rest)
        = aposChar :: cmap escNoApos rest
      rw [aposfix_apos, ih g (by omega)]
    by_cases h4 : ('<' == c) = true
    · rw [← eq_of_beq h4] at hfu ⊢
      have h0 : (cmap escAll ('<' :: rest)).length = 4 + (cmap escAll rest).length := by
        show ("&lt;".data ++ cmap escAll rest).length = _
        rw [List.length_append]; rfl
      rw [h0] at hfu
      obtain ⟨g, rfl⟩ : ∃ g, fu = g + 4 := ⟨fu - 4, by omega⟩
      show pyReplaceF (g + 4) ("&#x27;".data) ([aposChar]) ("&lt;".data ++ cmap escAll rest)
        = "&lt;".data ++ cmap escNoApos rest
      rw [aposfix_lt, ih g (by omega)]
    by_cases h5 : ('>' == c) = true
    · rw [← eq_of_beq h5] at hfu ⊢
      have h0 : (cmap escAll ('>' :: rest)).length = 4 + (cmap escAll rest).length := by
        show ("&gt;".data ++ cmap escAll rest).length = _
        rw [List.length_append]; rfl
      rw [h0] at hfu
      obtain ⟨g, rfl⟩ : ∃ g, fu = g + 4 := ⟨fu - 4, by omega⟩
      show pyReplaceF (g + 4) ("&#x27;".data) ([aposChar]) ("&gt;".data ++ cmap escAll rest)
        = "&gt;".data ++ cmap escNoApos rest
      rw [aposfix_gt, ih g (by omega)]
    · have h1f : ('&' == c) = false := by revert h1; cases ('&' == c) <;> simp
      have hA : escAll c = [c] := by
        simp only [Bool.not_eq_true] at h1 h2 h3 h4 h5
        rw [beq_eq_false_iff_ne] at h1 h2 h3 h4 h5
        simp [escAll, h1, h2, h3, h4, h5]
      have hN : escNoApos c = [c] := by
        simp only [Bool.not_eq_true] at h1 h2 h4 h5
        rw [beq_eq_false_iff_ne] at h1 h2 h4 h5
        simp [escNoApos, h1, h2, h4, h5]
      have h0 : (cmap escAll (c :: rest)).length = 1 + (cmap escAll rest).length := by
        simp only [cmap, hA, List.length_append]
        rfl
      rw [h0] at hfu
      obtain ⟨g, rfl⟩ : ∃ g, fu = g + 1 := ⟨fu - 1, by omega⟩
      simp only [cmap, hA, hN]
      rw [show (([c] ++ cmap escAll rest : Str)) = c :: cmap escAll rest from rfl]
      rw [aposfix_other g c _ h1f, ih g (by omega)]
      rfl

/-- escape_html rewritten per character: unescape first, then escape
every special character except the apostrophe, which stays literal. -/
theorem escape_html_cmap (x : Str) : escape_html x = cmap escNoApos (htmlUnescape x) := by
  unfold escape_html pyReplace
  rw [htmlEscape_cmap]
  exact aposfix_cmap (htmlUnescape x) _ (Nat.le_refl _)

theorem unescape_amp (g : Nat) (R : Str) :
    htmlUnescapeF (g + 1) ("&amp;".data ++ R) = '&' :: htmlUnescapeF g R := rfl

theorem unescape_quot (g : Nat) (R : Str) :
    htmlUnescapeF (g + 1) ("&quot;".data ++ R) = '"' :: htmlUnescapeF g R := rfl

theorem unescape_lt (g : Nat) (R : Str) :
    htmlUnescapeF (g + 1) ("&lt;".data ++ R) = '<' :: htmlUnescapeF g R := rfl

theorem unescape_gt (g : Nat) (R : Str) :
    htmlUnescapeF (g + 1) ("&gt;".data ++ R) = '>' :: htmlUnescapeF g R := rfl

theorem unescape_other (g : Nat) (c : Char) (R : Str) (h : ('&' == c) = false) :
    htmlUnescapeF (g + 1) (c :: R) = c :: htmlUnescapeF g R := by
  have h2 : (c == '&') = false := by
    rw [beq_eq_false_iff_ne] at h ⊢
    exact fun e => h e.symm
  simp [htmlUnescapeF, h2]

theorem unescape_cmap : ∀ (y : Str) (fu : Nat), (cmap escNoApos y).length ≤ fu →
    htmlUnescapeF fu (cmap escNoApos y) = y := by
  intro y
  induction y with
  | nil => intro fu _; cases fu <;> rfl
  | cons c rest ih =>
    intro fu hfu
    by_cases h1 : ('&' == c) = true
    · rw [← eq_of_beq h1] at hfu ⊢
      have h0 : (cmap escNoApos ('&' :: rest)).length = 5 + (cmap escNoApos rest).length := by
        show ("&amp;".data ++ cmap escNoApos rest).length = _
        rw [List.length_append]; rfl
      rw [h0] at hfu
      obtain ⟨g, rfl⟩ : ∃ g, fu = g + 1 := ⟨fu - 1, by omega⟩
      show htmlUnescapeF (g + 1) ("&amp;".data ++ cmap escNoApos rest) = '&' :: rest
      rw [unescape_amp, ih g (by omega)]
    by_cases h2 : ('"' == c) = true
    · rw [← eq_of_beq h2] at hfu ⊢
      have h0 : (cmap escNoApos ('"' :: rest)).length = 6 + (cmap escNoApos rest).length := by
        show ("&quot;".data ++ cmap escNoApos rest).length = _
        rw [List.length_append]; rfl
      rw [h0] at hfu
      obtain ⟨g, rfl⟩ : ∃ g, fu = g + 1 := ⟨fu - 1, by omega⟩
      show htmlUnescapeF (g + 1) ("&quot;".data ++ cmap escNoApos rest) = '"' :: rest
      rw [unescape_quot, ih g (by omega)]
    by_cases h4 : ('<' == c) = true
    · rw [← eq_of_beq h4] at hfu ⊢
      have h0 : (cmap escNoApos ('<' :: rest)).length = 4 + (cmap escNoApos rest).length := by
        show ("&lt;".data ++ cmap escNoApos rest).length = _
        rw [List.length_append]; rfl
      rw [h0] at hfu
      obtain ⟨g, rfl⟩ : ∃ g, fu = g + 1 := ⟨fu - 1, by omega⟩
      show htmlUnescapeF (g + 1) ("&lt;".data ++ cmap escNoApos rest) = '<' :: rest
      rw [unescape_lt, ih g (by omega)]
    by_cases h5 : ('>' == c) = true
    · rw [← eq_of_beq h5] at hfu ⊢
      have h0 : (cmap escNoApos ('>' :: rest)).length = 4 + (cmap escNoApos rest).length := by
        show ("&gt;".data ++ cmap escNoApos rest).length = _
        rw [List.length_append]; rfl
      rw [h0] at hfu
      obtain ⟨g, rfl⟩ : ∃ g, fu = g + 1 := ⟨fu - 1, by omega⟩
      show htmlUnescapeF (g + 1) ("&gt;".data ++ cmap escNoApos rest) = '>' :: rest
      rw [unescape_gt, ih g (by omega)]
    · have h1f : ('&' == c) = false := by revert h1; cases ('&' == c) <;> simp
      have hN : escNoApos c = [c] := by
        simp only [Bool.not_eq_true] at h1 h2 h4 h5
        rw [beq_eq_false_iff_ne] at h1 h2 h4 h5
        simp [escNoApos, h1, h2, h4, h5]
      have h0 : (cmap escNoApos (c :: rest)).length = 1 + (cmap escNoApos rest).length := by
        simp only [cmap, hN, List.length_append]
        rfl
      rw [h0] at hfu
      obtain ⟨g, rfl⟩ : ∃ g, fu = g + 1 := ⟨fu - 1, by omega⟩
      simp only [cmap, hN]
      rw [show (([c] ++ cmap escNoApos rest : Str)) = c :: cmap escNoApos rest from rfl]
      rw [unescape_other g c _ h1f, ih g (by omega)]

/-- C5, counterexample: on the printable input consisting of the
terminated amp entity, the round trip yields the ampersand, not the
input back. -/
theorem c5_counterexample :
    htmlUnescape (escape_html ("&amp;".data)) = "&".data ∧
    ("&".data : Str) ≠ "&amp;".data :=
  ⟨rfl, by decide⟩

/-- C5, amended: unescaping after escape_html yields the unescape of
the input, for EVERY input; hence the round trip returns the input
itself exactly on inputs that are already fully unescaped (inputs
containing a resolvable character reference are normalised instead). -/
theorem c5_roundtrip_normalises :
    ∀ x : Str, htmlUnescape (escape_html x) = htmlUnescape x := by
  intro x
  rw [escape_html_cmap]
  exact unescape_cmap (htmlUnescape x) _ (Nat.le_refl _)

theorem wrapOpen_length (d : Str) : (wrapOpen d).length = d.length + 2 := by
  simp [wrapOpen]

theorem strPrefix_append_self (l : Str) : ∀ r, strPrefix l (l ++ r) = true := by
  induction l with
  | nil => intro r; rfl
  | cons a as ih => intro r; simp [strPrefix, ih r]

theorem strPrefix_of_short : ∀ (p s : Str), s.length < p.length → strPrefix p s = false := by
  intro p
  induction p with
  | nil => intro s h; simp at h
  | cons a as ih =>
    intro s h
    cases s with
    | nil => rfl
    | cons b bs =>
      have hb : bs.length < as.length := by simp at h; omega
      simp [strPrefix, ih bs hb]

theorem pyRindexAux_short (pat : Str) (hp : pat ≠ []) :
    ∀ (s : Str), s.length < pat.length → ∀ (i : Nat) (acc : Option Nat),
      pyRindexAux pat s i acc = acc := by
  intro s
  induction s with
  | nil =>
    intro _ i acc
    have hfalse : strPrefix pat [] = false := by
      cases pat with
      | nil => exact absurd rfl hp
      | cons p pr => rfl
    simp [pyRindexAux, hfalse]
  | cons b bs ih =>
    intro h i acc
    have h1 : strPrefix pat (b :: bs) = false := strPrefix_of_short pat _ h
    simp only [pyRindexAux, h1, Bool.false_eq_true, if_false]
    exact ih (by simp at h ⊢; omega) (i + 1) acc

theorem pyRindexAux_append (pat : Str) (hp : pat ≠ []) :
    ∀ (l : Str) (i : Nat) (acc : Option Nat),
      pyRindexAux pat (l ++ pat) i acc = some (i + l.length) := by
  intro l
  induction l with
  | nil =>
    intro i acc
    cases hpat : pat with
    | nil => exact absurd hpat hp
    | cons p pr =>
      subst hpat
      have hself : strPrefix (p :: pr) (p :: pr) = true := by
        have h0 := strPrefix_append_self (p :: pr) []
        simpa using h0
      simp only [List.nil_append, pyRindexAux, hself, if_true, List.length_nil, Nat.add_zero]
      exact pyRindexAux_short _ hp pr (by simp) (i + 1) (some i)
  | cons a l2 ih =>
    intro i acc
    show pyRindexAux pat (a :: (l2 ++ pat)) i acc = some (i + (a :: l2).length)
    simp only [pyRindexAux]
    rw [ih (i + 1) _]
    congr 1
    simp
    omega

/-- C8, counterexample: on a serialized output whose tags cannot be
located but which merely ENDS with an empty self-closed wrapper, the
code silently returns the empty string, while the claim mandates a
raised structural error (the whole document is not an empty self-closed
wrapper here). -/
theorem c8_counterexample :
    stripTopLevel ("div".data) ("x<div />".data) = .ok [] ∧
    pyIndex ("x<div />".data) (wrapOpen ("div".data)) = none ∧
    pyStrip ("x<div />".data) ≠ wrapSelfClosed ("div".data) :=
  ⟨rfl, rfl, by decide⟩

/-- C8, amended: when both wrapper tags are present around the content,
stripping removes exactly the outermost wrapper tags and keeps the
(whitespace-stripped) inner content; an exactly-empty self-closed
wrapper yields the empty string; and when the stripped output does not
even end with an empty self-closed wrapper, a structural error is
raised; but the fallback tests only the END of the output, not the
whole document. -/
theorem c8_strip_top_level :
    (∀ (d inner : Str),
      stripTopLevel d (wrapOpen d ++ inner ++ wrapClose d) = .ok (pyStrip inner)) ∧
    stripTopLevel ("div".data) (wrapSelfClosed ("div".data)) = .ok [] ∧
    stripTopLevel ("div".data) ("<p>x</p>".data)
      = .error (("Markdown failed to strip top-level tags.").data) := by
  refine ⟨?_, rfl, rfl⟩
  intro d inner
  have hIdx : pyIndex (wrapOpen d ++ inner ++ wrapClose d) (wrapOpen d) = some 0 := by
    show pyIndexAux (wrapOpen d) (wrapOpen d ++ inner ++ wrapClose d) 0 = some 0
    have hshape : wrapOpen d ++ inner ++ wrapClose d
        = '<' :: ((d ++ (">".data)) ++ (inner ++ wrapClose d)) := by
      simp [wrapOpen]
    have hpre : strPrefix (wrapOpen d) (wrapOpen d ++ (inner ++ wrapClose d)) = true :=
      strPrefix_append_self (wrapOpen d) (inner ++ wrapClose d)
    rw [hshape]
    have hpre2 : strPrefix (wrapOpen d) ('<' :: ((d ++ (">".data)) ++ (inner ++ wrapClose d))) = true := by
      rw [show ('<' :: ((d ++ (">".data)) ++ (inner ++ wrapClose d)))
            = wrapOpen d ++ (inner ++ wrapClose d) by simp [wrapOpen]]
      exact hpre
    simp only [pyIndexAux, hpre2, if_true]
  have hClose : wrapClose d ≠ [] := by
    intro h
    have := congrArg List.length h
    simp [wrapClose] at this
  have hRidx : pyRindex (wrapOpen d ++ inner ++ wrapClose d) (wrapClose d)
      = some (0 + (wrapOpen d ++ inner).length) :=
    pyRindexAux_append (wrapClose d) hClose (wrapOpen d ++ inner) 0 none
  simp only [stripTopLevel]
  rw [hIdx, hRidx]
  simp only []
  have hslice : (((wrapOpen d ++ inner ++ wrapClose d).drop (0 + d.length + 2)).take
      (0 + (wrapOpen d ++ inner).length - (0 + d.length + 2))) = inner := by
    have h1 : 0 + d.length + 2 = (wrapOpen d).length := by
      rw [wrapOpen_length]; omega
    rw [h1]
    have h2 : 0 + (wrapOpen d ++ inner).length - (wrapOpen d).length = inner.length := by
      simp
    rw [h2]
    have h3 : wrapOpen d ++ inner ++ wrapClose d = wrapOpen d ++ (inner ++ wrapClose d) := by
      simp [List.append_assoc]
    rw [h3, List.drop_left, List.take_left]
  rw [hslice]
